import Mathlib

set_option maxRecDepth 100000

/-!
Verification of the audiobook chapter-localization engine.

Shallow embedding of the chapter-localization code:
`src/audio_analyzer.py` (`find_chapter_linear`), `src/main.py` (the primary
scan loop), `src/find_missing.py` (`find_missing_chapters`), and
`src/epub_parser.py` (`_safe_truncate`, `_extract_search_phrases`).

Times and scores are rationals; the speech-to-text service, the media
extractor, and the fuzzy-ratio library are modelled as explicit oracles
(an `AudioEnv` record of functions), since the code treats them as opaque
external collaborators.  The window-scanning loop of `find_chapter_linear`
is written with an explicit fuel parameter; running out of fuel yields
`none`, and the fuel bound needed for the loop to complete is proved below.
-/

/-- Chapter status, from `models.py`. -/
inductive Status where
  | PENDING
  | IGNORED
  | FOUND
  | FAILED
  | INSERTED
  deriving DecidableEq, Repr

/-- The `Chapter` dataclass of `models.py` (fields used by the engine). -/
structure Chapter where
  index : ℕ
  toc_title : String
  search_phrase : String
  alternate_phrase : String
  confirmed_time : Option ℚ
  status : Status
  deriving DecidableEq, Repr

/-- One transcribed segment: text plus its start offset within the chunk. -/
structure Segment where
  text : String
  start : ℚ
  deriving DecidableEq, Repr

/-- `str.lower()` on the character sequence (ASCII case folding). -/
def toLowerCs (cs : List Char) : List Char := cs.map Char.toLower

/-- `str.strip()` on the character sequence: drop leading and trailing
whitespace. -/
def stripCs (cs : List Char) : List Char :=
  ((cs.dropWhile Char.isWhitespace).reverse.dropWhile Char.isWhitespace).reverse

/-- The two fuzzy-ratio functions of the `thefuzz` library, as an oracle over
character sequences.  `partialRatioFn` stands for `fuzz.partial_ratio`,
`ratioFn` for `fuzz.ratio`; both return integers in `[0, 100]` (the range
bound is taken as a hypothesis where a theorem needs it). -/
structure Fuzz where
  partialRatioFn : List Char → List Char → ℕ
  ratioFn : List Char → List Char → ℕ

/-- The external collaborators of `AudioAnalyzer`: fuzzy matching, the total
audio duration (ffprobe), per-window extraction success (ffmpeg), and
per-window transcription (whisper).  Extraction and transcription are keyed
by the window's start time and actual duration. -/
structure AudioEnv where
  fz : Fuzz
  total_duration : ℚ
  extract_ok : ℚ → ℚ → Bool
  transcribe : ℚ → ℚ → List Segment

/-- Python's two-argument `min`, written so that it evaluates by kernel
reduction on rationals (it agrees with `min`, see `ratMin_eq_min`). -/
def ratMin (a b : ℚ) : ℚ := if a ≤ b then a else b

/-- `chunk_duration = 240` seconds (`audio_analyzer.py` line 76). -/
def chunk_duration : ℚ := 240

/-- `overlap = 120` seconds (`audio_analyzer.py` line 77). -/
def overlap : ℚ := 120

/-- The blended score `0.7 * p_ratio + 0.3 * s_ratio`
(`audio_analyzer.py` line 172). -/
def blend (p s : ℚ) : ℚ := (7 / 10) * p + (3 / 10) * s

/-- Score of one (lowercased, stripped, non-empty) segment text against the
lowercased search phrase: partial ratio of the whole phrase, simple ratio of
the phrase's prefix of the text's length — `search_phrase[:len(text)]` —
(`audio_analyzer.py` lines 157-172). -/
def segScore (fz : Fuzz) (search_phrase text : List Char) : ℚ :=
  blend (fz.partialRatioFn search_phrase text)
    (fz.ratioFn (search_phrase.take text.length) text)

/-- One step of the best-segment fold: skip empty (stripped) text, otherwise
keep the segment iff its score strictly beats the best so far
(`audio_analyzer.py` lines 152-176).  The accumulator is
`(best_ratio, best_segment_time)`. -/
def scanStep (fz : Fuzz) (search_phrase : List Char) (current_time : ℚ)
    (acc : ℚ × Option ℚ) (seg : Segment) : ℚ × Option ℚ :=
  let text := stripCs (toLowerCs seg.text.data)
  if text = [] then acc
  else
    let final_score := segScore fz search_phrase text
    if acc.1 < final_score then (final_score, some (current_time + seg.start))
    else acc

/-- Fold over one chunk's segments, starting from `best_ratio = 0`,
`best_segment_time = None` (`audio_analyzer.py` lines 144-176). -/
def scanSegments (fz : Fuzz) (search_phrase : List Char) (current_time : ℚ)
    (segs : List Segment) : ℚ × Option ℚ :=
  List.foldl (scanStep fz search_phrase current_time) (0, none) segs

/-- Outcome of the window loop of `find_chapter_linear`:
a confirmed match, an ffmpeg extraction failure, the loop running out of
windows (limit reached or final chunk shorter than 2 s), or fuel exhaustion
of the embedding. -/
inductive LoopOut where
  | found (t : Option ℚ)
  | extractFail
  | exhausted
  | fuelOut
  deriving DecidableEq, Repr

/-- The `while current_time < search_limit` loop of `find_chapter_linear`
(`audio_analyzer.py` lines 89-196), with explicit fuel.  Each iteration:
truncate the chunk at `total_duration`, stop if shorter than 2 s, fail the
attempt if extraction fails, otherwise score the chunk's segments and either
confirm (best score at or above `min_confidence`) or advance the window by
`chunk_duration - overlap`. -/
def scanLoop (E : AudioEnv) (search_phrase : List Char)
    (min_confidence search_limit : ℚ) : ℕ → ℚ → LoopOut
  | 0, current_time =>
    if current_time < search_limit then LoopOut.fuelOut else LoopOut.exhausted
  | fuel + 1, current_time =>
    if current_time < search_limit then
      let end_time := ratMin (current_time + chunk_duration) E.total_duration
      let actual_duration := end_time - current_time
      if actual_duration < 2 then LoopOut.exhausted
      else if E.extract_ok current_time actual_duration then
        let r := scanSegments E.fz search_phrase current_time
          (E.transcribe current_time actual_duration)
        if min_confidence ≤ r.1 then LoopOut.found r.2
        else
          scanLoop E search_phrase min_confidence search_limit fuel
            (current_time + (chunk_duration - overlap))
      else LoopOut.extractFail
    else LoopOut.exhausted

/-- `AudioAnalyzer.find_chapter_linear` (`audio_analyzer.py` lines 71-204):
scan forward from `start_search_time` up to
`min(total_duration, start_search_time + max_search_duration)`.
On a confirmed match the chapter becomes `FOUND` with the best segment's
absolute time; on extraction failure the function returns `False` with the
chapter untouched; on exhaustion the chapter becomes `FAILED`.
`none` means the embedding's fuel ran out. -/
def find_chapter_linear (E : AudioEnv) (chapter : Chapter)
    (start_search_time max_search_duration min_confidence : ℚ) (fuel : ℕ) :
    Option (Chapter × Bool) :=
  let search_limit :=
    ratMin E.total_duration (start_search_time + max_search_duration)
  match scanLoop E (toLowerCs chapter.search_phrase.data) min_confidence
      search_limit fuel start_search_time with
  | LoopOut.found t =>
      some ({ chapter with status := Status.FOUND, confirmed_time := t }, true)
  | LoopOut.extractFail => some (chapter, false)
  | LoopOut.exhausted =>
      some ({ chapter with status := Status.FAILED }, false)
  | LoopOut.fuelOut => none

/-- `default_search_window = 2700` seconds (`main.py` line 108). -/
def default_search_window : ℚ := 2700

/-- The anchor update `if chap.confirmed_time: last_confirmed_time = ...`
(`main.py` lines 119-120); Python truthiness means both `None` and `0.0`
leave the anchor unchanged. -/
def truthyAnchor (anchor : ℚ) (t : Option ℚ) : ℚ :=
  match t with
  | some c => if c = 0 then anchor else c
  | none => anchor

/-- The primary-pass loop of `main.py` (lines 106-131): thread the anchor
`last_confirmed_time` and the budget `current_search_window` through the
chapter list; on success update the anchor and reset an inflated budget to
the default, on failure keep the anchor and grow the budget by one default
increment. -/
def mainScan (E : AudioEnv) (fuel : ℕ) :
    ℚ → ℚ → List Chapter → Option (List Chapter)
  | _, _, [] => some []
  | last_confirmed_time, current_search_window, chap :: rest =>
    match find_chapter_linear E chap last_confirmed_time current_search_window
        90 fuel with
    | none => none
    | some (chap', fnd) =>
      if fnd then
        Option.map (fun l => chap' :: l)
          (mainScan E fuel (truthyAnchor last_confirmed_time chap'.confirmed_time)
            (if default_search_window < current_search_window then
              default_search_window
            else current_search_window) rest)
      else
        Option.map (fun l => chap' :: l)
          (mainScan E fuel last_confirmed_time
            (current_search_window + default_search_window) rest)

/-- A chapter usable as an anchor in `find_missing.py`:
`status == "FOUND" and confirmed_time is not None`. -/
def isAnchor (c : Chapter) : Bool :=
  c.status == Status.FOUND && c.confirmed_time.isSome

/-- `start_bound`: confirmed time of the nearest preceding anchor, else `0.0`
(`find_missing.py` lines 172-177); `pre` is the already-processed prefix of
the chapter list. -/
def startBound (pre : List Chapter) : ℚ :=
  match List.find? isAnchor pre.reverse with
  | some c => c.confirmed_time.getD 0
  | none => 0

/-- `end_bound`: confirmed time of the nearest following anchor, else the
total audio duration (`find_missing.py` lines 179-184). -/
def endBound (total_duration : ℚ) (post : List Chapter) : ℚ :=
  match List.find? isAnchor post with
  | some c => c.confirmed_time.getD total_duration
  | none => total_duration

/-- The gap checks of `find_missing.py` (lines 186-211): skip when the raw
window `end_bound - start_bound` is non-positive, apply the 5-second forward
buffer, skip when the remaining window is under 10 s, otherwise return
`(actual_start, actual_window)` for the scan. -/
def gapParams (start_bound end_bound : ℚ) : Option (ℚ × ℚ) :=
  if end_bound - start_bound ≤ 0 then none
  else
    let actual_start := start_bound + 5
    let actual_window := end_bound - actual_start
    if actual_window < 10 then none
    else some (actual_start, actual_window)

/-- The gap-recovery loop of `find_missing_chapters` (`find_missing.py`
lines 166-222): walk the chapter list keeping the processed prefix `done`
(bound lookups on `done` therefore see recoveries made earlier in the same
pass); skip `FOUND` chapters and invalid gaps, otherwise rescan the chapter
inside its bounded gap with the default confidence threshold. -/
def findMissingLoop (E : AudioEnv) (fuel : ℕ) (total_duration : ℚ) :
    List Chapter → List Chapter → Option (List Chapter)
  | done, [] => some done
  | done, chap :: rest =>
    if chap.status == Status.FOUND then
      findMissingLoop E fuel total_duration (done ++ [chap]) rest
    else
      match gapParams (startBound done) (endBound total_duration rest) with
      | none => findMissingLoop E fuel total_duration (done ++ [chap]) rest
      | some (actual_start, actual_window) =>
        match find_chapter_linear E chap actual_start actual_window 90 fuel with
        | none => none
        | some (chap', _) =>
          findMissingLoop E fuel total_duration (done ++ [chap']) rest

/-- `EpubParser._safe_truncate` (`epub_parser.py` lines 144-158) on the
character sequence of the text: return the text whole when within the limit,
otherwise cut at the first whitespace at or after position `limit`
(the `while end < len(text) and not text[end].isspace()` scan). -/
def safe_truncate (text : List Char) (limit : ℕ) : List Char :=
  if text.length ≤ limit then text
  else
    text.take
      (limit + (List.takeWhile (fun c => !c.isWhitespace) (text.drop limit)).length)

/-- `paragraph_length_limit = 150` (`epub_parser.py` line 131). -/
def paragraph_length_limit : ℕ := 150

/-- `EpubParser._extract_search_phrases` (`epub_parser.py` lines 111-142),
starting from the extracted paragraph texts: keep paragraphs longer than 20
characters, truncate the first as the primary phrase; if it is shorter than
50 characters combine it with the second paragraph, otherwise the truncated
second paragraph becomes the alternate phrase. -/
def extract_search_phrases (paragraphs : List (List Char)) :
    List Char × List Char :=
  match paragraphs.filter (fun p => 20 < p.length) with
  | [] => ([], [])
  | p0 :: restPs =>
    let primary := safe_truncate p0 paragraph_length_limit
    match restPs with
    | [] => (primary, [])
    | p1 :: _ =>
      if primary.length < 50 then
        (safe_truncate (p0 ++ [' '] ++ p1) paragraph_length_limit, [])
      else
        (primary, safe_truncate p1 paragraph_length_limit)

/-- The confirmed times of the `FOUND` chapters of a list, in list order. -/
def foundTimes (l : List Chapter) : List ℚ :=
  l.filterMap (fun c => if c.status = Status.FOUND then c.confirmed_time else none)

/-! ### Concrete environments used to instantiate the claims -/

/-- Fuzzy oracle for the three-window scenario: both ratios are 95 for the
matching utterance and 0 otherwise, so the blended scores are `{0, 0, 95}`. -/
def scenarioFuzz : Fuzz where
  partialRatioFn := fun p t =>
    if p = "hello world".data ∧ t = "hello world is here".data then 95 else 0
  ratioFn := fun _ t => if t = "hello world is here".data then 95 else 0

/-- Environment for the three-window scenario of the spec: chunks starting at
100, 220 and 340 s transcribe to one segment each, the third being the match
at in-chunk offset 5.0. -/
def scenarioEnv : AudioEnv where
  fz := scenarioFuzz
  total_duration := 3600
  extract_ok := fun _ _ => true
  transcribe := fun t d =>
    if t = 100 ∧ d = 240 then [⟨"Random noise", 0⟩]
    else if t = 220 ∧ d = 240 then [⟨"Absolute gibberish", 0⟩]
    else if t = 340 ∧ d = 240 then [⟨"Hello World is here", 5⟩]
    else []

/-- The chapter of the three-window scenario, `primary_phrase = "Hello World"`. -/
def scenarioChapter : Chapter where
  index := 1
  toc_title := "Test"
  search_phrase := "Hello World"
  alternate_phrase := ""
  confirmed_time := none
  status := Status.PENDING

/-- Environment whose media extraction always fails. -/
def failEnv : AudioEnv where
  fz := scenarioFuzz
  total_duration := 3600
  extract_ok := fun _ _ => false
  transcribe := fun _ _ => []

/-- Environment producing no speech at all, over a 100-second file. -/
def emptyEnv : AudioEnv where
  fz := scenarioFuzz
  total_duration := 100
  extract_ok := fun _ _ => true
  transcribe := fun _ _ => []

/-- Exact-match fuzzy oracle used by the gap-recovery scenarios. -/
def chainFuzz : Fuzz where
  partialRatioFn := fun p t => if p = t then 100 else 0
  ratioFn := fun p t => if p = t then 100 else 0

/-- Constant fuzzy oracle used to instantiate the scorer bounds. -/
def constFuzz : Fuzz where
  partialRatioFn := fun _ _ => 100
  ratioFn := fun _ _ => 0

/-- Gap-recovery chaining environment: the phrase of the first missing
chapter is spoken in the window starting at 105 s, at offset 95, so the
chapter is recovered at `t = 200`. -/
def chainEnv : AudioEnv where
  fz := chainFuzz
  total_duration := 600
  extract_ok := fun _ _ => true
  transcribe := fun t d => if t = 105 ∧ d = 240 then [⟨"bravo", 95⟩] else []

/-- Pre-existing anchor at `t = 100`. -/
def chapA : Chapter where
  index := 1
  toc_title := "A"
  search_phrase := "alpha"
  alternate_phrase := ""
  confirmed_time := some 100
  status := Status.FOUND

/-- First missing chapter of the chaining scenario. -/
def chapB : Chapter where
  index := 2
  toc_title := "B"
  search_phrase := "bravo"
  alternate_phrase := ""
  confirmed_time := none
  status := Status.PENDING

/-- Second missing chapter of the chaining scenario. -/
def chapC : Chapter where
  index := 3
  toc_title := "C"
  search_phrase := "charlie"
  alternate_phrase := ""
  confirmed_time := none
  status := Status.PENDING

/-- Pre-existing anchor at `t = 500`. -/
def chapD : Chapter where
  index := 4
  toc_title := "D"
  search_phrase := "delta"
  alternate_phrase := ""
  confirmed_time := some 500
  status := Status.FOUND

/-- Environment showing a gap-recovery match can land past the upper anchor:
the window starting at 465 s (still below the 500 s limit) contains the
phrase at offset 100, giving an absolute time of 565 s. -/
def overshootEnv : AudioEnv where
  fz := chainFuzz
  total_duration := 800
  extract_ok := fun _ _ => true
  transcribe := fun t d => if t = 465 ∧ d = 240 then [⟨"bravo", 100⟩] else []

/-- Evaluation of the three-window scenario. -/
theorem scenarioRun_eval :
    find_chapter_linear scenarioEnv scenarioChapter 100 2700 80 5
      = some ({ scenarioChapter with
                  status := Status.FOUND, confirmed_time := some 345 }, true) := by
  with_unfolding_all decide

/-- Evaluation of the gap-recovery chaining scenario. -/
theorem chainRun_eval :
    findMissingLoop chainEnv 10 600 [] [chapA, chapB, chapC, chapD]
      = some [chapA,
              { chapB with status := Status.FOUND, confirmed_time := some 200 },
              { chapC with status := Status.FAILED }, chapD] := by
  with_unfolding_all decide

/-- Evaluation of the gap-recovery overshoot scenario. -/
theorem overshootRun_eval :
    findMissingLoop overshootEnv 10 800 [] [chapA, chapB, chapD]
      = some [chapA,
              { chapB with status := Status.FOUND, confirmed_time := some 565 },
              chapD] := by
  with_unfolding_all decide

/-! ### General lemmas about the embedded scanner -/

theorem ratMin_eq_min (a b : ℚ) : ratMin a b = min a b := by
  simp [ratMin, min_def]

/-- The best-segment fold either keeps its initial `(0, none)` or returns a
positive best score together with the absolute time of one of the chunk's
segments. -/
theorem scanSegments_spec (fz : Fuzz) (phrase : List Char) (t : ℚ)
    (segs : List Segment) :
    scanSegments fz phrase t segs = (0, none)
    ∨ (0 < (scanSegments fz phrase t segs).1
        ∧ ∃ sg ∈ segs, (scanSegments fz phrase t segs).2 = some (t + sg.start)) := by
  have main : ∀ (l : List Segment) (acc : ℚ × Option ℚ),
      (∀ sg ∈ l, sg ∈ segs) →
      (acc = (0, none) ∨ (0 < acc.1 ∧ ∃ sg ∈ segs, acc.2 = some (t + sg.start))) →
      (List.foldl (scanStep fz phrase t) acc l = (0, none)
        ∨ (0 < (List.foldl (scanStep fz phrase t) acc l).1
            ∧ ∃ sg ∈ segs,
                (List.foldl (scanStep fz phrase t) acc l).2 = some (t + sg.start))) := by
    intro l
    induction l with
    | nil => intro acc _ hacc; simpa using hacc
    | cons s l ih =>
      intro acc hsub hacc
      have hs : s ∈ segs := hsub s (List.mem_cons_self s l)
      have hsub' : ∀ sg ∈ l, sg ∈ segs := fun sg h => hsub sg (List.mem_cons_of_mem s h)
      have hstep : scanStep fz phrase t acc s = acc
          ∨ (0 < (scanStep fz phrase t acc s).1
              ∧ (scanStep fz phrase t acc s).2 = some (t + s.start)) := by
        simp only [scanStep]
        by_cases he : stripCs (toLowerCs s.text.data) = []
        · simp [he]
        · simp only [he, if_false]
          by_cases hlt : acc.1 < segScore fz phrase (stripCs (toLowerCs s.text.data))
          · right
            have h0 : 0 ≤ acc.1 := by
              rcases hacc with h | h
              · rw [h]
              · exact le_of_lt h.1
            constructor
            · simpa [hlt] using lt_of_le_of_lt h0 hlt
            · simp [hlt]
          · left; simp [hlt]
      rcases hstep with h | h
      · rw [List.foldl_cons, h]
        exact ih acc hsub' hacc
      · rw [List.foldl_cons]
        exact ih _ hsub' (Or.inr ⟨h.1, s, hs, h.2⟩)
  simpa [scanSegments] using main segs (0, none) (fun _ h => h) (Or.inl rfl)

/-- A confirmed scan pins down the window it confirmed in: the best time is
the window's start plus the offset of one of that window's segments, the
window starts at or after the initial time, and below the search limit. -/
theorem scanLoop_found (E : AudioEnv) (phrase : List Char) (conf limit : ℚ)
    (hconf : 0 < conf) :
    ∀ (fuel : ℕ) (t : ℚ) (bt : Option ℚ),
      scanLoop E phrase conf limit fuel t = LoopOut.found bt →
      ∃ tw sg, t ≤ tw ∧ tw < limit
        ∧ sg ∈ E.transcribe tw (ratMin (tw + chunk_duration) E.total_duration - tw)
        ∧ bt = some (tw + sg.start) := by
  intro fuel
  induction fuel with
  | zero =>
    intro t bt h
    simp only [scanLoop] at h
    split at h <;> simp at h
  | succ fuel ih =>
    intro t bt h
    simp only [scanLoop] at h
    by_cases hlt : t < limit
    · rw [if_pos hlt] at h
      by_cases h2 : ratMin (t + chunk_duration) E.total_duration - t < 2
      · rw [if_pos h2] at h; simp at h
      · rw [if_neg h2] at h
        by_cases hex : E.extract_ok t (ratMin (t + chunk_duration) E.total_duration - t) = true
        · rw [if_pos hex] at h
          by_cases hsc : conf ≤ (scanSegments E.fz phrase t
              (E.transcribe t (ratMin (t + chunk_duration) E.total_duration - t))).1
          · rw [if_pos hsc] at h
            have hbt : (scanSegments E.fz phrase t
                (E.transcribe t (ratMin (t + chunk_duration) E.total_duration - t))).2
                  = bt := by
              injection h
            rcases scanSegments_spec E.fz phrase t
                (E.transcribe t (ratMin (t + chunk_duration) E.total_duration - t)) with
              hz | ⟨hpos, sg, hmem, heq⟩
            · rw [hz] at hsc
              norm_num at hsc
              linarith
            · exact ⟨t, sg, le_refl t, hlt, hmem, by rw [← hbt, heq]⟩
          · rw [if_neg hsc] at h
            obtain ⟨tw, sg, h1, h2', h3, h4⟩ := ih _ _ h
            refine ⟨tw, sg, le_trans ?_ h1, h2', h3, h4⟩
            norm_num [chunk_duration, overlap]
        · rw [if_neg hex] at h; simp at h
    · rw [if_neg hlt] at h; simp at h

/-- Fuel bound: once `limit - t ≤ 120 * fuel`, the loop cannot run out of
fuel — every iteration advances the window start by exactly
`chunk_duration - overlap = 120` seconds toward the fixed limit. -/
theorem scanLoop_fuel (E : AudioEnv) (phrase : List Char) (conf limit : ℚ) :
    ∀ (fuel : ℕ) (t : ℚ), limit - t ≤ 120 * fuel →
      scanLoop E phrase conf limit fuel t ≠ LoopOut.fuelOut := by
  intro fuel
  induction fuel with
  | zero =>
    intro t hb
    have hnlt : ¬ t < limit := by
      intro hlt
      push_cast at hb
      have : (0:ℚ) < limit - t := by linarith
      linarith
    simp [scanLoop, hnlt]
  | succ fuel ih =>
    intro t hb
    simp only [scanLoop]
    split
    · split
      · simp
      · split
        · split
          · simp
          · apply ih
            push_cast at hb ⊢
            norm_num [chunk_duration, overlap]
            linarith
        · simp
    · simp

/-- With enough fuel (`limit - start ≤ 120 * fuel`), `find_chapter_linear`
completes. -/
theorem find_isSome (E : AudioEnv) (chap : Chapter)
    (start dur conf : ℚ) (fuel : ℕ)
    (h : ratMin E.total_duration (start + dur) - start ≤ 120 * fuel) :
    (find_chapter_linear E chap start dur conf fuel).isSome := by
  have hne := scanLoop_fuel E (toLowerCs chap.search_phrase.data) conf
    (ratMin E.total_duration (start + dur)) fuel start h
  simp only [find_chapter_linear]
  rcases hsl : scanLoop E (toLowerCs chap.search_phrase.data) conf
      (ratMin E.total_duration (start + dur)) fuel start with bt | _ | _ | _ <;>
    simp [hsl] at hne ⊢

/-- A successful `find_chapter_linear` call comes from a confirmed window:
the output chapter is the input one with status `FOUND` and confirmed time
the window start plus one of that window's segment offsets. -/
theorem find_found (E : AudioEnv) (chap chap' : Chapter)
    (start dur conf : ℚ) (fuel : ℕ) (hconf : 0 < conf)
    (h : find_chapter_linear E chap start dur conf fuel = some (chap', true)) :
    ∃ tw sg, start ≤ tw ∧ tw < ratMin E.total_duration (start + dur)
      ∧ sg ∈ E.transcribe tw (ratMin (tw + chunk_duration) E.total_duration - tw)
      ∧ chap' = { chap with
                  status := Status.FOUND
                  confirmed_time := some (tw + sg.start) } := by
  simp only [find_chapter_linear] at h
  rcases hsl : scanLoop E (toLowerCs chap.search_phrase.data) conf
      (ratMin E.total_duration (start + dur)) fuel start with bt | _ | _ | _ <;>
    rw [hsl] at h <;> simp at h
  obtain ⟨tw, sg, h1, h2, h3, h4⟩ :=
    scanLoop_found E (toLowerCs chap.search_phrase.data) conf
      (ratMin E.total_duration (start + dur)) hconf fuel start bt hsl
  exact ⟨tw, sg, h1, h2, h3, by rw [← h, h4]⟩

/-- A failed `find_chapter_linear` call leaves the chapter untouched
(extraction failure) or merely marks it `FAILED` (exhaustion); in both cases
`confirmed_time` is unchanged and the status is never `FOUND` unless it
already was. -/
theorem find_false (E : AudioEnv) (chap chap' : Chapter)
    (start dur conf : ℚ) (fuel : ℕ)
    (h : find_chapter_linear E chap start dur conf fuel = some (chap', false)) :
    chap' = chap ∨ chap' = { chap with status := Status.FAILED } := by
  simp only [find_chapter_linear] at h
  rcases hsl : scanLoop E (toLowerCs chap.search_phrase.data) conf
      (ratMin E.total_duration (start + dur)) fuel start with bt | _ | _ | _ <;>
    rw [hsl] at h <;> simp at h
  · exact Or.inl h.symm
  · exact Or.inr h.symm

theorem foundTimes_cons_found (c : Chapter) (l : List Chapter) (tc : ℚ)
    (hst : c.status = Status.FOUND) (ht : c.confirmed_time = some tc) :
    foundTimes (c :: l) = tc :: foundTimes l := by
  simp [foundTimes, List.filterMap_cons, hst, ht]

theorem foundTimes_cons_not (c : Chapter) (l : List Chapter)
    (hst : c.status ≠ Status.FOUND) :
    foundTimes (c :: l) = foundTimes l := by
  simp [foundTimes, List.filterMap_cons, hst]

/-- Invariant of the primary pass: starting from a non-negative anchor `a`,
every confirmed time the pass records is at least `a`, and the recorded
times are non-decreasing in document order. -/
theorem mainScan_anchored (E : AudioEnv) (fuel : ℕ)
    (hseg : ∀ t d sg, sg ∈ E.transcribe t d → 0 ≤ sg.start) :
    ∀ (chs : List Chapter) (a w : ℚ) (out : List Chapter),
      0 ≤ a → (∀ c ∈ chs, c.status ≠ Status.FOUND) →
      mainScan E fuel a w chs = some out →
      (∀ x ∈ foundTimes out, a ≤ x) ∧ List.Sorted (· ≤ ·) (foundTimes out) := by
  intro chs
  induction chs with
  | nil =>
    intro a w out _ _ hrun
    simp only [mainScan] at hrun
    obtain rfl : ([] : List Chapter) = out := by injection hrun
    simp [foundTimes]
  | cons chap rest ih =>
    intro a w out ha hst hrun
    simp only [mainScan] at hrun
    rcases hf : find_chapter_linear E chap a w 90 fuel with _ | ⟨chap', fnd⟩
    · rw [hf] at hrun; simp at hrun
    · rw [hf] at hrun
      cases fnd with
      | true =>
        simp only [if_pos] at hrun
        obtain ⟨out', hrun', rfl⟩ := Option.map_eq_some'.mp hrun
        obtain ⟨tw, sg, h1, h2, h3, rfl⟩ :=
          find_found E chap chap' a w 90 fuel (by norm_num) hf
        have hc0 : 0 ≤ sg.start := hseg _ _ _ h3
        have hac : a ≤ tw + sg.start := le_trans h1 (by linarith)
        have h0c : 0 ≤ tw + sg.start := le_trans ha hac
        have hanchor : truthyAnchor a (some (tw + sg.start))
            = if tw + sg.start = 0 then a else tw + sg.start := rfl
        set a' := truthyAnchor a (some (tw + sg.start)) with ha'
        have haa' : a ≤ a' := by
          rw [hanchor]; split <;> simp [le_refl, hac]
        have hca' : tw + sg.start ≤ a' := by
          rw [hanchor]
          split
          · rename_i hz; rw [hz]; exact ha
          · exact le_refl _
        have h0a' : 0 ≤ a' := le_trans ha haa'
        obtain ⟨hge, hsorted⟩ := ih a' _ out' h0a'
          (fun c hc => hst c (List.mem_cons_of_mem _ hc)) hrun'
        rw [foundTimes_cons_found _ _ (tw + sg.start) rfl rfl]
        constructor
        · intro x hx
          rcases List.mem_cons.mp hx with rfl | hx
          · exact hac
          · exact le_trans haa' (hge x hx)
        · rw [List.sorted_cons]
          exact ⟨fun b hb => le_trans hca' (hge b hb), hsorted⟩
      | false =>
        simp only [Bool.false_eq_true, if_neg, if_false] at hrun
        obtain ⟨out', hrun', rfl⟩ := Option.map_eq_some'.mp hrun
        have hnf : chap'.status ≠ Status.FOUND := by
          rcases find_false E chap chap' a w 90 fuel hf with h | h
          · rw [h]; exact hst chap (List.mem_cons_self _ _)
          · rw [h]; simp
        obtain ⟨hge, hsorted⟩ := ih a _ out' ha
          (fun c hc => hst c (List.mem_cons_of_mem _ hc)) hrun'
        rw [foundTimes_cons_not _ _ hnf]
        exact ⟨hge, hsorted⟩

/-- The gap-recovery loop only ever appends to its processed prefix. -/
theorem findMissingLoop_appendOnly (E : AudioEnv) (fuel : ℕ) (total : ℚ) :
    ∀ (l done out : List Chapter),
      findMissingLoop E fuel total done l = some out →
      ∃ suf, out = done ++ suf := by
  intro l
  induction l with
  | nil =>
    intro done out h
    simp only [findMissingLoop] at h
    exact ⟨[], by simp [← Option.some_inj.mp h]⟩
  | cons chap rest ih =>
    intro done out h
    simp only [findMissingLoop] at h
    by_cases hs : (chap.status == Status.FOUND) = true
    · rw [if_pos hs] at h
      obtain ⟨suf, hsuf⟩ := ih _ _ h
      exact ⟨chap :: suf, by simp [hsuf]⟩
    · rw [if_neg hs] at h
      rcases hg : gapParams (startBound done) (endBound total rest) with _ | ⟨s, b⟩ <;>
        rw [hg] at h
      · obtain ⟨suf, hsuf⟩ := ih _ _ h
        exact ⟨chap :: suf, by simp [hsuf]⟩
      · rcases hfind : find_chapter_linear E chap s b 90 fuel with _ | ⟨chap', fnd⟩ <;>
          simp only [hfind] at h
        · simp at h
        · obtain ⟨suf, hsuf⟩ := ih _ _ h
          exact ⟨chap' :: suf, by simp [hsuf]⟩

theorem getElem_append_cons (d s : List Chapter) (c : Chapter) :
    (d ++ c :: s)[d.length]? = some c := by
  induction d with
  | nil => simp
  | cons x d ih => simpa using ih

/-- `gapParams` returns `none` exactly on a non-positive raw window or a
buffered window under 10 seconds. -/
theorem gapParams_none_iff (sb eb : ℚ) :
    gapParams sb eb = none ↔ (eb - sb ≤ 0 ∨ eb - (sb + 5) < 10) := by
  simp only [gapParams]
  by_cases h1 : eb - sb ≤ 0
  · simp [h1]
  · rw [if_neg h1]
    by_cases h2 : eb - (sb + 5) < 10
    · simp [h2, h1]
    · simp [h2, h1]

theorem gapParams_some (sb eb s b : ℚ) (h : gapParams sb eb = some (s, b)) :
    s = sb + 5 ∧ b = eb - (sb + 5) := by
  simp only [gapParams] at h
  by_cases h1 : eb - sb ≤ 0
  · rw [if_pos h1] at h; simp at h
  · rw [if_neg h1] at h
    by_cases h2 : eb - (sb + 5) < 10
    · rw [if_pos h2] at h; simp at h
    · rw [if_neg h2] at h
      have hp := Option.some_inj.mp h
      exact ⟨(congrArg Prod.fst hp).symm, (congrArg Prod.snd hp).symm⟩

/-- A chapter that became an anchor is found first by the backward
`start_bound` lookup over the processed prefix it was appended to. -/
theorem startBound_append_anchor (pre : List Chapter) (c : Chapter)
    (hc : isAnchor c = true) :
    startBound (pre ++ [c]) = c.confirmed_time.getD 0 := by
  simp [startBound, List.find?, hc]

theorem dropWhile_head_not (p : Char → Bool) :
    ∀ (l : List Char) (c : Char) (rest : List Char),
      l.dropWhile p = c :: rest → p c = false := by
  intro l
  induction l with
  | nil => intro c rest h; simp at h
  | cons a l ih =>
    intro c rest h
    by_cases hp : p a = true
    · rw [List.dropWhile_cons_of_pos hp] at h
      exact ih c rest h
    · have hp' : p a = false := by simpa using hp
      rw [List.dropWhile_cons_of_neg (by simp [hp'])] at h
      obtain ⟨rfl, -⟩ : a = c ∧ l = rest := by
        injection h with h1 h2; exact ⟨h1, h2⟩
      exact hp'

/-- Structure of `safe_truncate` on text longer than the limit: the result is
a prefix of the text, at least `limit` characters long, and is either the
whole text or cut exactly at the next whitespace — never inside a word. -/
theorem safe_truncate_spec (text : List Char) (limit : ℕ)
    (hlen : limit < text.length) :
    limit ≤ (safe_truncate text limit).length
    ∧ safe_truncate text limit = text.take (safe_truncate text limit).length
    ∧ ((safe_truncate text limit).length = text.length
        ∨ ∃ c rest, text.drop (safe_truncate text limit).length = c :: rest
            ∧ c.isWhitespace = true) := by
  have hnle : ¬ text.length ≤ limit := Nat.not_le.mpr hlen
  have htr : safe_truncate text limit
      = text.take (limit +
          (List.takeWhile (fun c => !c.isWhitespace) (text.drop limit)).length) := by
    simp [safe_truncate, hnle]
  set k := (List.takeWhile (fun c => !c.isWhitespace) (text.drop limit)).length with hk
  have hk_le : k ≤ (text.drop limit).length := by
    have hsplit := congrArg List.length
      (List.takeWhile_append_dropWhile (fun c => !c.isWhitespace) (text.drop limit))
    rw [List.length_append, ← hk] at hsplit
    omega
  have hdroplen : (text.drop limit).length = text.length - limit := by simp
  have he_le : limit + k ≤ text.length := by omega
  have hlength : (safe_truncate text limit).length = limit + k := by
    rw [htr, List.length_take]
    omega
  refine ⟨by omega, by rw [hlength]; exact htr, ?_⟩
  by_cases heq : limit + k = text.length
  · left; omega
  · right
    have hlt : limit + k < text.length := by omega
    have hdrop : text.drop (limit + k)
        = List.dropWhile (fun c => !c.isWhitespace) (text.drop limit) := by
      rw [← List.drop_drop]
      conv_lhs => rw [← List.takeWhile_append_dropWhile
        (fun c => !c.isWhitespace) (text.drop limit)]
      exact List.drop_left' hk.symm
    rcases hdw : List.dropWhile (fun c => !c.isWhitespace) (text.drop limit)
      with _ | ⟨c, rest⟩
    · exfalso
      have hlen0 := congrArg List.length hdrop
      rw [hdw] at hlen0
      simp at hlen0
      omega
    · refine ⟨c, rest, by rw [hlength, hdrop, hdw], ?_⟩
      have hp := dropWhile_head_not (fun c => !c.isWhitespace) (text.drop limit)
        c rest hdw
      simpa using hp

/-! ### The claims -/

/-- C1: in any window whose best-scoring non-empty segment reaches the
confidence threshold, the scan stops at that window with result `found`,
and `find_chapter_linear` then records status `FOUND` with confirmed time
equal to the window's start plus the segment's in-chunk offset; in the
three-window scenario with scores `{0, 0, 95}` at chunk starts `100, 220,
340`, offset `5.0` on the third and threshold `80`, the result is
`confirmed_time = 345.0` and status `FOUND`. -/
theorem claim_C1 :
    (∀ (E : AudioEnv) (phrase : List Char) (conf limit : ℚ) (fuel : ℕ)
        (t : ℚ) (r : ℚ × Option ℚ),
      t < limit →
      ¬ (ratMin (t + chunk_duration) E.total_duration - t < 2) →
      E.extract_ok t (ratMin (t + chunk_duration) E.total_duration - t) = true →
      scanSegments E.fz phrase t
          (E.transcribe t (ratMin (t + chunk_duration) E.total_duration - t)) = r →
      conf ≤ r.1 →
      scanLoop E phrase conf limit (fuel + 1) t = LoopOut.found r.2)
    ∧ find_chapter_linear scenarioEnv scenarioChapter 100 2700 80 5
        = some ({ scenarioChapter with
                  status := Status.FOUND
                  confirmed_time := some 345 }, true) := by
  constructor
  · intro E phrase conf limit fuel t r hlt h2 hex hsc hconf
    simp only [scanLoop]
    rw [if_pos hlt, if_neg h2, if_pos hex, hsc, if_pos hconf]
  · exact scenarioRun_eval

/-- Witness for C1: the scenario's third window confirms immediately. -/
theorem claim_C1_witness :
    scanLoop scenarioEnv "hello world".data 80 2800 1 340
      = LoopOut.found (some 345) := by
  have h := claim_C1.1 scenarioEnv "hello world".data 80 2800 0 340
    (scanSegments scenarioEnv.fz "hello world".data 340
      (scenarioEnv.transcribe 340
        (ratMin (340 + chunk_duration) scenarioEnv.total_duration - 340)))
    (by norm_num)
    (by with_unfolding_all decide)
    (by with_unfolding_all decide)
    rfl
    (by with_unfolding_all decide)
  refine h.trans ?_
  with_unfolding_all decide

/-- C2: the blended score is exactly `0.7 * partial_ratio + 0.3 * prefix
ratio` (the second computed against the phrase truncated to the candidate's
length), lies in `[0, 100]` whenever the two ratios do, and takes the exact
values `70.0` on `(100, 0)` and `100.0` on `(100, 100)`. -/
theorem claim_C2 (fz : Fuzz) (search_phrase text : List Char)
    (hp : fz.partialRatioFn search_phrase text ≤ 100)
    (hs : fz.ratioFn (search_phrase.take text.length) text ≤ 100) :
    segScore fz search_phrase text
      = blend (fz.partialRatioFn search_phrase text)
          (fz.ratioFn (search_phrase.take text.length) text)
    ∧ 0 ≤ segScore fz search_phrase text
    ∧ segScore fz search_phrase text ≤ 100
    ∧ blend 100 0 = 70
    ∧ blend 100 100 = 100 := by
  have hp' : ((fz.partialRatioFn search_phrase text : ℚ)) ≤ 100 := by
    exact_mod_cast hp
  have hs' : ((fz.ratioFn (search_phrase.take text.length) text : ℚ)) ≤ 100 := by
    exact_mod_cast hs
  have hp0 : (0:ℚ) ≤ (fz.partialRatioFn search_phrase text : ℚ) := by positivity
  have hs0 : (0:ℚ) ≤ (fz.ratioFn (search_phrase.take text.length) text : ℚ) := by
    positivity
  refine ⟨rfl, ?_, ?_, by norm_num [blend], by norm_num [blend]⟩
  · simp only [segScore, blend]
    linarith
  · simp only [segScore, blend]
    linarith

/-- Witness for C2 on the constant oracle. -/
theorem claim_C2_witness :
    0 ≤ segScore constFuzz "a".data "b".data
    ∧ segScore constFuzz "a".data "b".data ≤ 100 := by
  have h := claim_C2 constFuzz "a".data "b".data
    (by norm_num [constFuzz]) (by norm_num [constFuzz])
  exact ⟨h.2.1, h.2.2.1⟩

/-- C3: one step of the primary pass.  On a failed scan the next chapter is
processed with the same anchor and a budget grown by exactly one default
increment; on a successful scan the budget for the next chapter is reset to
the default (in one step, however inflated the budget had become). -/
theorem claim_C3 (E : AudioEnv) (fuel : ℕ) (anchor window : ℚ)
    (chap chap' : Chapter) (rest : List Chapter) :
    (find_chapter_linear E chap anchor window 90 fuel = some (chap', false) →
      mainScan E fuel anchor window (chap :: rest)
        = Option.map (fun l => chap' :: l)
            (mainScan E fuel anchor (window + default_search_window) rest))
    ∧ (default_search_window ≤ window →
      find_chapter_linear E chap anchor window 90 fuel = some (chap', true) →
      mainScan E fuel anchor window (chap :: rest)
        = Option.map (fun l => chap' :: l)
            (mainScan E fuel (truthyAnchor anchor chap'.confirmed_time)
              default_search_window rest)) := by
  constructor
  · intro h
    simp only [mainScan, h, Bool.false_eq_true, if_false]
  · intro hw h
    simp only [mainScan, h, if_pos]
    rcases lt_or_eq_of_le hw with hlt | heq
    · rw [if_pos hlt]
    · rw [if_neg (by rw [heq]; exact lt_irrefl _), ← heq]

/-- Witness for C3: a failing scan grows the budget by one increment. -/
theorem claim_C3_witness :
    mainScan failEnv 1 0 2700 [scenarioChapter]
      = Option.map (fun l => scenarioChapter :: l)
          (mainScan failEnv 1 0 (2700 + default_search_window) []) :=
  (claim_C3 failEnv 1 0 2700 scenarioChapter scenarioChapter []).1
    (by with_unfolding_all decide)

/-- C4 (amended): when extraction fails, the current chapter's attempt aborts
immediately — the scan returns failure without scoring any segments of that
window or trying further windows — but the chapter is returned *unchanged*:
its status is not set to `FAILED` (contrary to the claim), and its
`confirmed_time` is untouched.  The second conjunct is the first-window
instance. -/
theorem claim_C4 (E : AudioEnv) (chap : Chapter) (start dur conf : ℚ)
    (fuel : ℕ) :
    (scanLoop E (toLowerCs chap.search_phrase.data) conf
        (ratMin E.total_duration (start + dur)) fuel start = LoopOut.extractFail →
      find_chapter_linear E chap start dur conf fuel = some (chap, false))
    ∧ (start < ratMin E.total_duration (start + dur) →
      ¬ (ratMin (start + chunk_duration) E.total_duration - start < 2) →
      E.extract_ok start (ratMin (start + chunk_duration) E.total_duration - start)
        = false →
      find_chapter_linear E chap start dur conf (fuel + 1) = some (chap, false)) := by
  constructor
  · intro h
    simp only [find_chapter_linear, h]
  · intro hlt h2 hex
    have hsl : scanLoop E (toLowerCs chap.search_phrase.data) conf
        (ratMin E.total_duration (start + dur)) (fuel + 1) start
          = LoopOut.extractFail := by
      simp only [scanLoop]
      rw [if_pos hlt, if_neg h2, if_neg (by rw [hex]; simp)]
    simp only [find_chapter_linear, hsl]

/-- Counterexample to C4 as stated: extraction fails on the very first
window, the attempt aborts with a failure result, yet the chapter's status
stays `PENDING` — it does not become `FAILED`. -/
theorem claim_C4_counterexample :
    find_chapter_linear failEnv scenarioChapter 0 2700 90 5
      = some (scenarioChapter, false)
    ∧ scenarioChapter.status = Status.PENDING
    ∧ Status.PENDING ≠ Status.FAILED := by
  refine ⟨by with_unfolding_all decide, rfl, by decide⟩

/-- Witness for C4: the first-window conjunct at the always-failing
extractor. -/
theorem claim_C4_witness :
    find_chapter_linear failEnv scenarioChapter 0 2700 90 (4 + 1)
      = some (scenarioChapter, false) :=
  (claim_C4 failEnv scenarioChapter 0 2700 90 4).2
    (by with_unfolding_all decide)
    (by with_unfolding_all decide)
    (by with_unfolding_all decide)

/-- C5: in the gap-recovery pass a non-`FOUND` chapter is skipped — left in
the output completely unchanged — exactly when the raw gap is non-positive
or the buffered gap is below the 10-second minimum; otherwise the scan is
invoked with `search_start = lower_bound + 5` and
`search_budget = upper_bound - search_start`, and in particular bounds
`(100, 500)` give `(105, 395)`. -/
theorem claim_C5 (E : AudioEnv) (fuel : ℕ) (total : ℚ)
    (done rest : List Chapter) (chap : Chapter) (out : List Chapter)
    (hst : chap.status ≠ Status.FOUND)
    (hrun : findMissingLoop E fuel total done (chap :: rest) = some out) :
    (∀ sb eb : ℚ, gapParams sb eb = none ↔ (eb - sb ≤ 0 ∨ eb - (sb + 5) < 10))
    ∧ (gapParams (startBound done) (endBound total rest) = none →
        out[done.length]? = some chap)
    ∧ (∀ s b, gapParams (startBound done) (endBound total rest) = some (s, b) →
        s = startBound done + 5 ∧ b = endBound total rest - s
        ∧ ∃ chap' fnd, find_chapter_linear E chap s b 90 fuel = some (chap', fnd)
            ∧ out[done.length]? = some chap')
    ∧ gapParams 100 500 = some (105, 395) := by
  have hsb : (chap.status == Status.FOUND) = false := by
    simpa using hst
  refine ⟨gapParams_none_iff, ?_, ?_, by with_unfolding_all decide⟩
  · intro hg
    simp only [findMissingLoop, hsb, if_false, hg] at hrun
    obtain ⟨suf, rfl⟩ :=
      findMissingLoop_appendOnly E fuel total rest (done ++ [chap]) out hrun
    simpa [List.append_assoc] using getElem_append_cons done suf chap
  · intro s b hg
    obtain ⟨hs, hb⟩ := gapParams_some _ _ _ _ hg
    refine ⟨hs, by rw [hb, hs], ?_⟩
    simp only [findMissingLoop, hsb, if_false, hg] at hrun
    rcases hfind : find_chapter_linear E chap s b 90 fuel with _ | ⟨chap', fnd⟩ <;>
      simp only [hfind] at hrun
    · exact absurd hrun (by simp)
    · obtain ⟨suf, rfl⟩ :=
        findMissingLoop_appendOnly E fuel total rest (done ++ [chap']) out hrun
      exact ⟨chap', fnd, rfl,
        by simpa [List.append_assoc] using getElem_append_cons done suf chap'⟩

/-- Witness for C5: an empty repository state around one pending chapter. -/
theorem claim_C5_witness : gapParams 100 500 = some (105, 395) :=
  (claim_C5 failEnv 1 500 [] [] scenarioChapter [scenarioChapter]
    (by decide) (by with_unfolding_all decide)).2.2.2

/-- C6: bound lookups of the gap-recovery pass see recoveries made earlier
in the same pass — an appended anchor is what the backward lookup returns —
and in the concrete scenario with anchors at 100 and 500 and two missing
chapters, the first being recovered at 200 makes the second chapter's scan
start at 205 (at least 200, not 100). -/
theorem claim_C6 :
    (∀ (pre : List Chapter) (c : Chapter), isAnchor c = true →
      startBound (pre ++ [c]) = c.confirmed_time.getD 0)
    ∧ ∃ out,
        findMissingLoop chainEnv 10 600 [] [chapA, chapB, chapC, chapD] = some out
        ∧ out[1]? = some { chapB with
                           status := Status.FOUND
                           confirmed_time := some 200 }
        ∧ startBound (out.take 2) = 200
        ∧ gapParams (startBound (out.take 2)) (endBound 600 (out.drop 3))
            = some (205, 295)
        ∧ (∃ pr, find_chapter_linear chainEnv chapC 205 295 90 10 = some pr
            ∧ out[2]? = some pr.1)
        ∧ (200:ℚ) ≤ 205 := by
  refine ⟨fun pre c hc => startBound_append_anchor pre c hc, ?_⟩
  refine ⟨[chapA,
    { chapB with status := Status.FOUND, confirmed_time := some 200 },
    { chapC with status := Status.FAILED }, chapD],
    chainRun_eval, rfl, by with_unfolding_all decide,
    by with_unfolding_all decide, ?_, by norm_num⟩
  exact ⟨({ chapC with status := Status.FAILED }, false),
    by with_unfolding_all decide, rfl⟩

/-- Witness for C6: an anchor appended to the processed prefix is found by
the lookup. -/
theorem claim_C6_witness : startBound ([chapA] ++ [chapD]) = 500 :=
  (claim_C6.1 [chapA] chapD (by decide)).trans (by with_unfolding_all decide)

/-- C7: a chapter found by the primary pass has its confirmed time at or
after the anchor that was active when its scan started, and the confirmed
times the pass records, in document order, form a non-decreasing sequence. -/
theorem claim_C7 (E : AudioEnv) (fuel : ℕ) (chs out : List Chapter)
    (hseg : ∀ t d sg, sg ∈ E.transcribe t d → 0 ≤ sg.start)
    (hst : ∀ c ∈ chs, c.status ≠ Status.FOUND)
    (hrun : mainScan E fuel 0 default_search_window chs = some out) :
    (∀ (a w : ℚ) (c c' : Chapter),
        find_chapter_linear E c a w 90 fuel = some (c', true) →
        ∃ tc, c'.confirmed_time = some tc ∧ a ≤ tc)
    ∧ List.Sorted (· ≤ ·) (foundTimes out) := by
  constructor
  · intro a w c c' hf
    obtain ⟨tw, sg, h1, h2, h3, rfl⟩ :=
      find_found E c c' a w 90 fuel (by norm_num) hf
    exact ⟨tw + sg.start, rfl, le_trans h1 (by linarith [hseg _ _ _ h3])⟩
  · exact (mainScan_anchored E fuel hseg chs 0 default_search_window out
      le_rfl hst hrun).2

/-- Witness for C7 over the silent environment. -/
theorem claim_C7_witness :
    List.Sorted (· ≤ ·) (foundTimes [{ chapB with status := Status.FAILED }]) :=
  (claim_C7 emptyEnv 2 [chapB] [{ chapB with status := Status.FAILED }]
    (by intro t d sg hsg; simp [emptyEnv] at hsg)
    (by intro c hc; rw [List.mem_singleton] at hc; rw [hc]; simp [chapB])
    (by with_unfolding_all decide)).2

/-- C8 (amended): a chapter promoted by a bounded gap scan gets a confirmed
time at or after `search_start`, and below the search limit plus one chunk
length (also never beyond the audio's end); it can however exceed the gap's
`upper_bound` by up to a chunk, because only window *starts* are bounded by
the budget — the claim's bound `confirmed_time ≤ upper_bound` does not hold. -/
theorem claim_C8 (E : AudioEnv) (chap chap' : Chapter) (s b : ℚ) (fuel : ℕ)
    (hseg : ∀ t d sg, sg ∈ E.transcribe t d → 0 ≤ sg.start ∧ sg.start ≤ d)
    (h : find_chapter_linear E chap s b 90 fuel = some (chap', true)) :
    ∃ c, chap'.confirmed_time = some c ∧ s ≤ c
      ∧ c < ratMin E.total_duration (s + b) + chunk_duration
      ∧ c ≤ E.total_duration := by
  obtain ⟨tw, sg, h1, h2, h3, rfl⟩ :=
    find_found E chap chap' s b 90 fuel (by norm_num) h
  obtain ⟨hge, hle⟩ := hseg _ _ _ h3
  have hm1 : ratMin (tw + chunk_duration) E.total_duration ≤ tw + chunk_duration := by
    rw [ratMin_eq_min]; exact min_le_left _ _
  have hm2 : ratMin (tw + chunk_duration) E.total_duration ≤ E.total_duration := by
    rw [ratMin_eq_min]; exact min_le_right _ _
  refine ⟨tw + sg.start, rfl, le_trans h1 (by linarith), by linarith, by linarith⟩

/-- Counterexample to C8 as stated: with anchors at 100 and 500, the middle
chapter is recovered at `t = 565`, beyond the upper anchor 500 — the window
starting at 465 is still within the budget, but its match lies 100 seconds
into the chunk. -/
theorem claim_C8_counterexample :
    ∃ out, findMissingLoop overshootEnv 10 800 [] [chapA, chapB, chapD] = some out
      ∧ out[1]? = some { chapB with
                         status := Status.FOUND
                         confirmed_time := some 565 }
      ∧ startBound [chapA] = 100
      ∧ endBound 800 [chapD] = 500
      ∧ ¬ ((565:ℚ) ≤ 500) := by
  refine ⟨[chapA,
    { chapB with status := Status.FOUND, confirmed_time := some 565 }, chapD],
    overshootRun_eval, rfl, by with_unfolding_all decide,
    by with_unfolding_all decide, by norm_num⟩

/-- Witness for C8: the chaining scenario's recovery of `chapB` at 200. -/
theorem claim_C8_witness :
    ∃ c, ({ chapB with
            status := Status.FOUND
            confirmed_time := some 200 } : Chapter).confirmed_time = some c
      ∧ (105:ℚ) ≤ c
      ∧ c < ratMin chainEnv.total_duration (105 + 395) + chunk_duration
      ∧ c ≤ chainEnv.total_duration :=
  claim_C8 chainEnv chapB
    { chapB with status := Status.FOUND, confirmed_time := some 200 }
    105 395 10
    (by
      intro t d sg hsg
      simp only [chainEnv] at hsg
      split at hsg
      · rename_i hcond
        rw [List.mem_singleton] at hsg
        subst hsg
        refine ⟨by norm_num, ?_⟩
        rw [hcond.2]
        norm_num
      · simp at hsg)
    (by with_unfolding_all decide)

/-- C9 (amended): every phrase the parser produces is `safe_truncate` of some
source text with limit 150; text within the limit passes through unchanged;
longer text yields a prefix of at least 150 characters that is never cut in
the middle of a word — it is either the whole text or ends exactly before a
whitespace character — so the phrase may exceed 150 characters by the tail
of the word straddling the limit. -/
theorem claim_C9 (paragraphs : List (List Char)) (text : List Char) :
    (∃ src, (extract_search_phrases paragraphs).1 = safe_truncate src 150)
    ∧ (∃ src, (extract_search_phrases paragraphs).2 = safe_truncate src 150)
    ∧ (text.length ≤ 150 → safe_truncate text 150 = text)
    ∧ (150 < text.length →
        150 ≤ (safe_truncate text 150).length
        ∧ safe_truncate text 150 = text.take (safe_truncate text 150).length
        ∧ ((safe_truncate text 150).length = text.length
            ∨ ∃ c rest, text.drop (safe_truncate text 150).length = c :: rest
                ∧ c.isWhitespace = true)) := by
  have hnil : safe_truncate [] 150 = [] := by simp [safe_truncate]
  refine ⟨?_, ?_, fun h => by simp [safe_truncate, h],
    fun h => safe_truncate_spec text 150 h⟩
  · rcases hv : paragraphs.filter (fun p => 20 < p.length) with _ | ⟨p0, rest0⟩
    · exact ⟨[], by simp [extract_search_phrases, hv, hnil]⟩
    · rcases rest0 with _ | ⟨p1, ps⟩
      · exact ⟨p0, by simp [extract_search_phrases, hv, paragraph_length_limit]⟩
      · by_cases hlen : (safe_truncate p0 150).length < 50
        · exact ⟨p0 ++ [' '] ++ p1,
            by simp [extract_search_phrases, hv, hlen, paragraph_length_limit]⟩
        · exact ⟨p0,
            by simp [extract_search_phrases, hv, hlen, paragraph_length_limit]⟩
  · rcases hv : paragraphs.filter (fun p => 20 < p.length) with _ | ⟨p0, rest0⟩
    · exact ⟨[], by simp [extract_search_phrases, hv, hnil]⟩
    · rcases rest0 with _ | ⟨p1, ps⟩
      · exact ⟨[], by simp [extract_search_phrases, hv, hnil]⟩
      · by_cases hlen : (safe_truncate p0 150).length < 50
        · exact ⟨[], by simp [extract_search_phrases, hv, hlen,
            paragraph_length_limit, hnil]⟩
        · exact ⟨p1,
            by simp [extract_search_phrases, hv, hlen, paragraph_length_limit]⟩

/-- Counterexample to C9 as stated: a single 160-character paragraph without
any whitespace gives a primary phrase of 160 characters — more than 150. -/
theorem claim_C9_counterexample :
    150 < (extract_search_phrases [List.replicate 160 'a']).1.length := by
  decide

/-- Witness for C9 on the 160-character word. -/
theorem claim_C9_witness :
    150 ≤ (safe_truncate (List.replicate 160 'a') 150).length :=
  ((claim_C9 [] (List.replicate 160 'a')).2.2.2 (by decide)).1

/-- C10: the window loop terminates — with the step fixed at
`chunk_duration - overlap = 120` seconds, `⌈(search_limit - start) / 120⌉`
windows of fuel suffice for `find_chapter_linear` to return a result. -/
theorem claim_C10 (E : AudioEnv) (chap : Chapter)
    (start dur conf : ℚ) (fuel : ℕ)
    (h : (⌈(ratMin E.total_duration (start + dur) - start) / 120⌉).toNat ≤ fuel) :
    (find_chapter_linear E chap start dur conf fuel).isSome
    ∧ chunk_duration - overlap = 120 := by
  refine ⟨?_, by norm_num [chunk_duration, overlap]⟩
  apply find_isSome
  set x := ratMin E.total_duration (start + dur) - start with hx
  have h1 : x / 120 ≤ (⌈x / 120⌉ : ℚ) := Int.le_ceil _
  have h2 : (⌈x / 120⌉ : ℤ) ≤ ((⌈x / 120⌉.toNat : ℤ)) := Int.self_le_toNat _
  have h3 : ((⌈x / 120⌉.toNat : ℤ)) ≤ (fuel : ℤ) := by exact_mod_cast h
  have h4 : (⌈x / 120⌉ : ℚ) ≤ (fuel : ℚ) := by exact_mod_cast le_trans h2 h3
  have h5 : x / 120 ≤ (fuel : ℚ) := le_trans h1 h4
  rw [div_le_iff₀ (by norm_num : (0:ℚ) < 120)] at h5
  linarith

/-- Witness for C10 on the silent environment. -/
theorem claim_C10_witness :
    (find_chapter_linear emptyEnv chapB 0 2700 90 30).isSome :=
  (claim_C10 emptyEnv chapB 0 2700 90 30 (by with_unfolding_all decide)).1
